import Mathlib

/-!
Shallow embedding of the athena editor core: the grapheme-indexed rope
(internal/rope/rope.go), the chunk-based buffer (internal/editor/buffer),
the selection and word-motion layer (internal/editor/buffer/movement.go)
and the editor facade.  A document is modelled as a list of grapheme
clusters; the Unicode segmenter is the identity on that list, so a Go
string held by a rope leaf corresponds to the list of its clusters.
-/

namespace Athena

/-- Error values of the rope, buffer and editor packages
(ErrOutOfBounds, ErrInvalidRange, io.EOF, ErrInvalidLineCol,
ErrInvalidPosition, ErrNoBuffer, ErrInvalidOperation). -/
inductive AErr where
  | OutOfBounds
  | InvalidRange
  | EOF
  | InvalidLineCol
  | InvalidPosition
  | NoBuffer
  | InvalidOperation
deriving DecidableEq

/-- rope.RopeNode, as referenced through a nullable pointer: `nil` is the
nil *RopeNode (the empty rope), `mk` a node with its children, weight and
leaf data (data is unused on internal nodes, as in the source; a node is
a leaf exactly when both children are nil).  `data` is the cluster list
of the leaf's UTF-8 string. -/
inductive RopeNode (α : Type) : Type where
  | nil
  | mk (left : RopeNode α) (right : RopeNode α) (weight : Nat) (data : List α)
deriving DecidableEq

/-- rope.MaxLeafSize. -/
def MaxLeafSize : Nat := 256

variable {α : Type}

/-- RopeNode.totalGraphemes; a nil receiver counts 0, a leaf its weight,
an internal node its weight plus the right subtree. -/
def totalGraphemes : RopeNode α → Nat
  | .nil => 0
  | .mk .nil .nil w _ => w
  | .mk _ r w _ => w + totalGraphemes r

/-- RopeNode.writeToString (and Rope.String): the leaf data in order. -/
def ropeString : RopeNode α → List α
  | .nil => []
  | .mk .nil .nil _ d => d
  | .mk l r _ _ => ropeString l ++ ropeString r

/-- rope.concatenateNodes: either side nil returns the other, otherwise a
parent weighing the left side's total. -/
def concatenateNodes : RopeNode α → RopeNode α → RopeNode α
  | .nil, r => r
  | l, .nil => l
  | l, r => .mk l r (totalGraphemes l) []

/-- RopeNode.Split at a grapheme index.  Every call site in the source
passes a validated non-negative index, so the index is a Nat and the
source's leaf guard `index <= 0` becomes `index = 0`. -/
def splitNode : RopeNode α → Nat → RopeNode α × RopeNode α
  | .nil, _ => (.nil, .nil)
  | .mk .nil .nil w d, index =>
    if index = 0 then (.nil, .mk .nil .nil w d)
    else if w ≤ index then (.mk .nil .nil w d, .nil)
    else (.mk .nil .nil index (d.take index),
          .mk .nil .nil (w - index) (d.drop index))
  | .mk l r w _, index =>
    if index < w then
      let p := splitNode l index
      (p.1, concatenateNodes p.2 r)
    else
      let p := splitNode r (index - w)
      (concatenateNodes l p.1, p.2)

/-- The loop of rope.splitIntoLeaves: walk the clusters while building the
pending leaf data and its count, flush a leaf whenever the count reaches
maxSize, and flush the final partial leaf when data remains. -/
def splitIntoLeavesGo (maxSize : Nat) : List α → List α → Nat → List (RopeNode α)
  | [], sb, count => if sb.isEmpty then [] else [.mk .nil .nil count sb]
  | c :: rest, sb, count =>
    if maxSize ≤ count + 1 then
      .mk .nil .nil (count + 1) (sb ++ [c]) :: splitIntoLeavesGo maxSize rest [] 0
    else splitIntoLeavesGo maxSize rest (sb ++ [c]) (count + 1)

/-- rope.splitIntoLeaves. -/
def splitIntoLeaves (maxSize : Nat) (s : List α) : List (RopeNode α) :=
  splitIntoLeavesGo maxSize s [] 0

/-- rope.buildBalancedTree: recursively halve the leaf list. -/
def buildBalancedTree : List (RopeNode α) → RopeNode α
  | [] => .nil
  | [l] => l
  | a :: b :: rest =>
    let leaves := a :: b :: rest
    let mid := leaves.length / 2
    let l := buildBalancedTree (leaves.take mid)
    let r := buildBalancedTree (leaves.drop mid)
    .mk l r (totalGraphemes l) []
termination_by ls => ls.length
decreasing_by
  all_goals simp [List.length_take, List.length_drop]
  all_goals omega

/-- rope.flatten: the leaf nodes in order. -/
def flatten : RopeNode α → List (RopeNode α)
  | .nil => []
  | .mk .nil .nil w d => [.mk .nil .nil w d]
  | .mk l r _ _ => flatten l ++ flatten r

/-- rope.rebalance. -/
def rebalance (n : RopeNode α) : RopeNode α :=
  buildBalancedTree (flatten n)

/-- rope.NewRope (the root of the built Rope). -/
def newRope (s : List α) : RopeNode α :=
  buildBalancedTree (splitIntoLeaves MaxLeafSize s)

/-- Rope.Insert: validate, split, splice in the new text, rebalance. -/
def ropeInsert (root : RopeNode α) (index : Int) (s : List α) :
    Except AErr (RopeNode α) :=
  if index < 0 ∨ (totalGraphemes root : Int) < index then .error .OutOfBounds
  else
    let p := splitNode root index.toNat
    let insertRope := newRope s
    let newLeft := concatenateNodes p.1 insertRope
    .ok (rebalance (concatenateNodes newLeft p.2))

/-- Rope.Delete (the source's parameters are named start and end). -/
def ropeDelete (root : RopeNode α) (start stop : Int) :
    Except AErr (RopeNode α) :=
  if start < 0 ∨ (totalGraphemes root : Int) < stop ∨ stop < start then .error .InvalidRange
  else
    let p := splitNode root start.toNat
    let q := splitNode p.2 (stop - start).toNat
    .ok (rebalance (concatenateNodes p.1 q.2))

/-- Rope.Replace: validate once, then splice the replacement text. -/
def ropeReplace (root : RopeNode α) (start stop : Int) (s : List α) :
    Except AErr (RopeNode α) :=
  if start < 0 ∨ (totalGraphemes root : Int) < stop ∨ stop < start then .error .InvalidRange
  else
    let p := splitNode root start.toNat
    let q := splitNode p.2 (stop - start).toNat
    let insertRope := newRope s
    let newRoot := concatenateNodes p.1 insertRope
    .ok (rebalance (concatenateNodes newRoot q.2))

/-- The state effect of the mutating Rope.Insert: the root is replaced
only on the non-error path. -/
def ropeInsertApply (root : RopeNode α) (index : Int) (s : List α) : RopeNode α :=
  match ropeInsert root index s with
  | .ok r => r
  | .error _ => root

/-- RopeNode.appendTextRange: the clusters with index in [start, stop). -/
def appendTextRange : RopeNode α → Nat → Nat → List α
  | .nil, _, _ => []
  | .mk .nil .nil _ d, start, stop =>
    if stop ≤ start then [] else (d.drop start).take (stop - start)
  | .mk l r w _, start, stop =>
    if stop ≤ start then []
    else
      (if start < w then appendTextRange l start (min stop w) else []) ++
      (if w < stop then appendTextRange r (start - w) (stop - w) else [])

/-- Rope.Substring: validate, then extract the range. -/
def ropeSubstring (root : RopeNode α) (start stop : Int) : Except AErr (List α) :=
  if start < 0 ∨ (totalGraphemes root : Int) < stop ∨ stop < start then .error .InvalidRange
  else .ok (appendTextRange root start.toNat stop.toNat)

/-- The weight invariant every rope built by the source satisfies: a leaf
records its cluster count, an internal node has two non-nil children and
records the left subtree's total. -/
inductive WF : RopeNode α → Prop where
  | nil : WF .nil
  | leaf (w : Nat) (d : List α) (hw : w = d.length) : WF (.mk .nil .nil w d)
  | node (l r : RopeNode α) (w : Nat) (d : List α) (hl : WF l) (hr : WF r)
      (hnl : l ≠ .nil) (hnr : r ≠ .nil) (hw : w = totalGraphemes l) : WF (.mk l r w d)

/-- util.Clamp. -/
def clamp (value lo hi : Int) : Int :=
  if value < lo then lo else if hi < value then hi else value

/-- buffer.WordType. -/
inductive WordType where
  | None
  | Letter
  | Whitespace
  | Symbol
deriving DecidableEq

/-- buffer.getWordType: classify a cluster by its first code point.  The
Unicode classes IsSpace, IsLetter and IsNumber are embedded by their ASCII
fragments; every input the development exercises is ASCII. -/
def getWordType (s : String) : WordType :=
  if s = "" then .None
  else
    let r := s.front
    if r.isWhitespace then .Whitespace
    else if r.isAlpha ∨ r.isDigit ∨ r = '_' then .Letter
    else .Symbol

/-- state.Selection: anchor (Start) and head (End) as grapheme indices. -/
structure Selection where
  Start : Int
  End : Int
deriving DecidableEq

/-- The rope-backed Buffer as its methods in movement.go use it: the
document rope, the selection and the cached line starts (the mutexes and
the file handle carry no model state). -/
structure RopeBuffer where
  document : RopeNode String
  selection : Selection
  lineCache : List Int

/-- Rope.Substring as movement.go consumes it: the extracted clusters
joined back into one Go string. -/
def docSubstring (root : RopeNode String) (start stop : Int) : Except AErr String :=
  (ropeSubstring root start stop).map (fun l => String.join l)

/-- The scan loop inside Buffer.findNextWordBoundary.  The source walks one
cluster per iteration in direction ±1; the fuel bounds the iterations and
the call site passes enough that it never runs out for direction ±1 (the
position moves by one each round and the range check exits the loop). -/
def findBoundaryLoop (doc : RopeNode String) (totalLen : Int)
    (currType : WordType) (direction : Int) : Int → Nat → Int
  | nextPos, 0 => clamp nextPos 0 totalLen
  | nextPos, fuel + 1 =>
    let np := nextPos + direction
    if totalLen ≤ np ∨ np < 0 then clamp np 0 totalLen
    else
      match docSubstring doc np (np + 1) with
      | .error _ => np
      | .ok g =>
        if getWordType g ≠ currType then (if 0 < direction then np else np + 1)
        else findBoundaryLoop doc totalLen currType direction np fuel

/-- Buffer.findNextWordBoundary. -/
def findNextWordBoundary (b : RopeBuffer) (pos direction : Int) : Int :=
  let totalLen : Int := totalGraphemes b.document
  if totalLen ≤ pos then totalLen
  else if pos < 0 then 0
  else
    match docSubstring b.document pos (pos + 1) with
    | .error _ => pos
    | .ok curr =>
      findBoundaryLoop b.document totalLen (getWordType curr) direction pos
        (totalGraphemes b.document + 1)

/-- Buffer.MoveSelections: clamp the shifted head into [0, N]; extend moves
only the head, otherwise the selection collapses onto it. -/
def moveSelections (b : RopeBuffer) (offset : Int) (extend : Bool) : Except AErr RopeBuffer :=
  let newPos := clamp (b.selection.End + offset) 0 (totalGraphemes b.document)
  if extend then .ok {b with selection := {b.selection with End := newPos}}
  else .ok {b with selection := ⟨newPos, newPos⟩}

/-- Buffer.MoveSelectionToLineCol: validate the line, clamp the column to
the line length, move the head (extend) or collapse onto the target. -/
def moveSelectionToLineCol (b : RopeBuffer) (line col : Int) (extend : Bool) :
    Except AErr RopeBuffer :=
  if line < 0 ∨ col < 0 ∨ (b.lineCache.length : Int) ≤ line then .error .InvalidLineCol
  else
    let lineStart := b.lineCache.getD line.toNat 0
    let lineEnd :=
      if line.toNat + 1 < b.lineCache.length then b.lineCache.getD (line.toNat + 1) 0 - 1
      else (totalGraphemes b.document : Int)
    let lineLen := lineEnd - lineStart
    let actualCol := if lineLen < col then lineLen else col
    let targetPos := lineStart + actualCol
    if extend then .ok {b with selection := {b.selection with End := targetPos}}
    else .ok {b with selection := ⟨targetPos, targetPos⟩}

/-- Buffer.MoveToNextWord. -/
def moveToNextWord (b : RopeBuffer) (extend : Bool) : Except AErr RopeBuffer :=
  let newPos := findNextWordBoundary b b.selection.End 1
  if extend then .ok {b with selection := {b.selection with End := newPos}}
  else .ok {b with selection := ⟨newPos, newPos⟩}

/-- Buffer.MoveToPrevWord: on extend from a collapsed selection the head
keeps the old anchor and the anchor moves to the boundary. -/
def moveToPrevWord (b : RopeBuffer) (extend : Bool) : Except AErr RopeBuffer :=
  let newPos := findNextWordBoundary b (b.selection.Start - 1) (-1)
  if extend then
    if b.selection.End = b.selection.Start then
      .ok {b with selection := ⟨newPos, b.selection.Start⟩}
    else
      .ok {b with selection := {b.selection with Start := newPos}}
  else .ok {b with selection := ⟨newPos, newPos⟩}

/-- The buffer state an Except-returning motion leaves behind: the new
buffer on success, the untouched receiver on error (the source validates
before mutating). -/
def motionResult (r : Except AErr RopeBuffer) (b : RopeBuffer) : RopeBuffer :=
  match r with
  | .ok b2 => b2
  | .error _ => b

/-- Modelled from the spec: the line-index rebuild of the rope-backed
Buffer is absent from the sources (movement.go only reads the cache);
spec §4.2: the first line starts at 0 and a new line starts right after
every line-feed cluster. -/
def lineStartsAux (doc : List String) (pos : Nat) : List Int :=
  match doc with
  | [] => []
  | c :: rest =>
    if c = "\n" then ((pos : Int) + 1) :: lineStartsAux rest (pos + 1)
    else lineStartsAux rest (pos + 1)

/-- Modelled from the spec: the full line index of a document (§4.2). -/
def lineStarts (doc : List String) : List Int :=
  0 :: lineStartsAux doc 0

/-- Modelled from the spec: the rope-backed Buffer.PositionToLineCol
(absent from the sources); §4.2: error outside [0, N], otherwise the
largest line whose cached start is ≤ p, with the column the distance to
that start. -/
def positionToLineCol (b : RopeBuffer) (p : Int) : Except AErr (Int × Int) :=
  if p < 0 ∨ (totalGraphemes b.document : Int) < p then .error .InvalidPosition
  else
    let line := (b.lineCache.takeWhile (fun x => decide (x ≤ p))).length - 1
    .ok ((line : Int), p - b.lineCache.getD line 0)

/-- Modelled from the spec: the rope-backed Buffer.LineCount (absent from
the sources); §4.2: the number of lines is the size of the line index. -/
def ropeLineCount (b : RopeBuffer) : Int :=
  (b.lineCache.length : Int)

/-- Modelled from the spec: Buffer.CollapseSelectionsToCursor (absent from
the sources); §4.3/§4.5: collapsing sets the anchor to the head. -/
def collapseSelectionsToCursor (b : RopeBuffer) : RopeBuffer :=
  {b with selection := ⟨b.selection.End, b.selection.End⟩}

/-- Modelled from the spec: the rope-backed Buffer.Insert (absent from the
sources); §4.4: delete a non-empty selection, insert at its minimum, leave
a zero-width selection advanced by the cluster count of the text, rebuild
the line index.  Mutators are all-or-nothing (§7). -/
def ropeBufferInsert (b : RopeBuffer) (text : List String) : Except AErr RopeBuffer :=
  let mn := min b.selection.Start b.selection.End
  let mx := max b.selection.Start b.selection.End
  let step : Except AErr (RopeNode String) :=
    if mn = mx then .ok b.document else ropeDelete b.document mn mx
  match step with
  | .error e => .error e
  | .ok d1 =>
    match ropeInsert d1 mn text with
    | .error e => .error e
    | .ok d2 =>
      .ok { document := d2,
            selection := ⟨mn + (text.length : Int), mn + (text.length : Int)⟩,
            lineCache := lineStarts (ropeString d2) }

/-- state.EditorMode. -/
inductive EditorMode where
  | Normal
  | Insert
deriving DecidableEq

/-- The Editor restricted to what the embedded operations read: the current
buffer (the path-keyed map is not observable through them), the mode and
the sticky column (-1 when unset). -/
structure EditorState where
  current : Option RopeBuffer
  mode : EditorMode
  desiredColumn : Int

/-- Editor.InsertText: no current buffer or a mode other than Insert fails
with the state untouched; otherwise the selection collapses to the head
and the buffer insert runs (a collapse that precedes a failing insert
survives, as in the source). -/
def insertText (e : EditorState) (text : List String) : EditorState × Option AErr :=
  match e.current with
  | none => (e, some .NoBuffer)
  | some b =>
    if e.mode ≠ .Insert then (e, some .InvalidOperation)
    else
      let b1 := collapseSelectionsToCursor b
      match ropeBufferInsert b1 text with
      | .ok b2 => ({e with current := some b2}, none)
      | .error er => ({e with current := some b1}, some er)

/-- Editor.JumpFromCursor: clamp the target line into the document, latch
the desired column when unset, then delegate to MoveSelectionToLineCol.
The desired-column update precedes the move and survives its failure, as
in the source. -/
def jumpFromCursor (e : EditorState) (offset : Int) (extend : Bool) :
    EditorState × Option AErr :=
  match e.current with
  | none => (e, some .NoBuffer)
  | some b =>
    match positionToLineCol b b.selection.End with
    | .error er => (e, some er)
    | .ok lc =>
      let targetLine := lc.1 + offset
      let targetLine := if targetLine < 0 then 0 else targetLine
      let totalLines := ropeLineCount b
      let targetLine := if totalLines ≤ targetLine then totalLines - 1 else targetLine
      let desired := if e.desiredColumn = -1 then lc.2 else e.desiredColumn
      let e1 := {e with desiredColumn := desired}
      match moveSelectionToLineCol b targetLine desired extend with
      | .ok b2 => ({e1 with current := some b2}, none)
      | .error er => (e1, some er)

/-- buffer.Chunk: its rope materializes to the byte string `data`; the
LastUsed timestamp carries no model state. -/
structure Chunk where
  data : List Nat
  dirty : Bool
deriving DecidableEq

/-- buffer.ChunkManager: the loaded chunks as a shadowing association
list, the chunk size, the loaded-chunk counter, the size recorded at open
time and the backing file's bytes. -/
structure ChunkManager where
  chunks : List (Nat × Chunk)
  chunkSize : Nat
  loadedChunks : Nat
  totalSize : Nat
  fileBytes : List Nat
deriving DecidableEq

/-- buffer.MaxLoadedChunks. -/
def MaxLoadedChunks : Nat := 50

/-- buffer.DefaultChunkSize. -/
def DefaultChunkSize : Nat := 1024 * 64

/-- ChunkManager.loadChunk: EOF at or past the recorded total size,
otherwise the file slice of at most one chunk. -/
def loadChunk (cm : ChunkManager) (id : Nat) : Except AErr Chunk :=
  let offset := id * cm.chunkSize
  if cm.totalSize ≤ offset then .error .EOF
  else
    let size := if cm.totalSize - offset < cm.chunkSize then cm.totalSize - offset
                else cm.chunkSize
    .ok ⟨(cm.fileBytes.drop offset).take size, false⟩

/-- ChunkManager.GetChunk: a loaded chunk is returned as is, otherwise it
is loaded and cached.  The LRU eviction of the source (keyed on wall-clock
LastUsed stamps) is outside the embedding; the theorems below only visit
managers with spare capacity, where the source takes the same path. -/
def getChunk (cm : ChunkManager) (id : Nat) : Except AErr (Chunk × ChunkManager) :=
  match cm.chunks.lookup id with
  | some c => .ok (c, cm)
  | none =>
    match loadChunk cm id with
    | .error e => .error e
    | .ok c =>
      .ok (c, {cm with chunks := (id, c) :: cm.chunks, loadedChunks := cm.loadedChunks + 1})

/-- Chunk.Write through the manager's map: the entry is replaced and
marked dirty. -/
def writeChunk (cm : ChunkManager) (id : Nat) (data : List Nat) : ChunkManager :=
  {cm with chunks := (id, ⟨data, true⟩) :: cm.chunks}

/-- The chunk-based buffer.Buffer: its manager and the cursor.  The
cursor's Position is an int in the source and non-negative in every
reachable state. -/
structure ChunkBuffer where
  manager : ChunkManager
  cursor : Nat
deriving DecidableEq

/-- Buffer.Size: the manager's totalSize, recorded at open time. -/
def bufSize (b : ChunkBuffer) : Nat :=
  b.manager.totalSize

/-- The chunk-based Buffer.Insert: fetch the cursor's chunk, splice the
inserted bytes at the byte offset of the cursor inside it, advance the
cursor by the byte length of the text.  (Go slicing would panic where the
relative position exceeds the chunk; take/drop totalize that case.) -/
def bufInsert (b : ChunkBuffer) (s : List Nat) : Except AErr ChunkBuffer :=
  let chunkID := b.cursor / b.manager.chunkSize
  match getChunk b.manager chunkID with
  | .error e => .error e
  | .ok p =>
    let relativePos := b.cursor % b.manager.chunkSize
    let chunkData := p.1.data
    let newData := chunkData.take relativePos ++ s ++ chunkData.drop relativePos
    .ok { manager := writeChunk p.2 chunkID newData, cursor := b.cursor + s.length }

/-- The chunk-based Buffer.Delete (source parameters start and end):
validate against the open-time Size, then cut within one chunk or across
chunks, dropping the intermediate entries and pulling the cursor back to
the start of the cut when it sat past it. -/
def bufDelete (b : ChunkBuffer) (start stop : Int) : Except AErr ChunkBuffer :=
  if start < 0 ∨ (bufSize b : Int) < stop ∨ stop < start then .error .InvalidRange
  else
    let s := start.toNat
    let e := stop.toNat
    let startChunk := s / b.manager.chunkSize
    let endChunk := e / b.manager.chunkSize
    if startChunk = endChunk then
      match getChunk b.manager startChunk with
      | .error er => .error er
      | .ok p =>
        let relStart := s % b.manager.chunkSize
        let relEnd := e % b.manager.chunkSize
        let newData := p.1.data.take relStart ++ p.1.data.drop relEnd
        .ok { manager := writeChunk p.2 startChunk newData,
              cursor := if s < b.cursor then s else b.cursor }
    else
      match getChunk b.manager startChunk with
      | .error er => .error er
      | .ok p =>
        let relStart := s % b.manager.chunkSize
        let head := p.1.data.take relStart
        let step : List Nat × ChunkManager :=
          match getChunk p.2 endChunk with
          | .error _ => (head, p.2)
          | .ok q => (head ++ q.1.data.drop (e % b.manager.chunkSize), q.2)
        let cm := writeChunk step.2 startChunk step.1
        let cm := {cm with
          chunks := cm.chunks.filter (fun q => ¬(startChunk + 1 ≤ q.1 ∧ q.1 ≤ endChunk)),
          loadedChunks := cm.loadedChunks - (endChunk - startChunk)}
        .ok { manager := cm, cursor := if s < b.cursor then s else b.cursor }

/-- The buffer state a mutator leaves behind: the new buffer on success,
the untouched receiver on error. -/
def chunkResult (r : Except AErr ChunkBuffer) (b : ChunkBuffer) : ChunkBuffer :=
  match r with
  | .ok b2 => b2
  | .error _ => b

/-- The loop of the chunk-based Buffer.LineCount: walk chunk ids from 0,
adding each chunk's line-feed count, until GetChunk reports EOF.  The fuel
bounds the walk; lineCount passes enough for the loop to reach its EOF
exit on every manager it is applied to. -/
def lineCountLoop (cm : ChunkManager) (count : Nat) (chunkID : Nat) : Nat → Nat × ChunkManager
  | 0 => (count, cm)
  | fuel + 1 =>
    match getChunk cm chunkID with
    | .error _ => (count, cm)
    | .ok p => lineCountLoop p.2 (count + p.1.data.count 10) (chunkID + 1) fuel

/-- The chunk-based Buffer.LineCount: the line-feed count over the chunks,
plus one when the chunk at index totalSize / chunkSize exists and does not
end in a line feed. -/
def lineCount (b : ChunkBuffer) : Nat × ChunkManager :=
  let cm := b.manager
  let fuel := cm.totalSize / cm.chunkSize + cm.chunks.foldl (fun a q => max a q.1) 0 + 2
  let p := lineCountLoop cm 0 0 fuel
  match getChunk p.2 (p.2.totalSize / p.2.chunkSize) with
  | .ok q => (if q.1.data.getLast? = some 10 then p.1 else p.1 + 1, q.2)
  | .error _ => p

/-- The grapheme clusters of a text, each as its UTF-8 bytes: the byte
string Go passes around is their concatenation, the grapheme count their
number. -/
def bytesOfClusters (clusters : List (List Nat)) : List Nat :=
  clusters.flatten

/-- count_graphemes of a text given by its clusters. -/
def countGraphemes (clusters : List (List Nat)) : Nat :=
  clusters.length

/-! Rope lemmas: concatenation, weights, split. -/

theorem ropeString_node {l : RopeNode α} (hl : l ≠ .nil) (r : RopeNode α) (w : Nat) (d : List α) :
    ropeString (.mk l r w d) = ropeString l ++ ropeString r := by
  cases l with
  | nil => exact absurd rfl hl
  | mk a b c e => rfl

theorem totalGraphemes_node {l : RopeNode α} (hl : l ≠ .nil) (r : RopeNode α) (w : Nat)
    (d : List α) : totalGraphemes (.mk l r w d) = w + totalGraphemes r := by
  cases l with
  | nil => exact absurd rfl hl
  | mk a b c e => rfl

theorem flatten_node {l : RopeNode α} (hl : l ≠ .nil) (r : RopeNode α) (w : Nat) (d : List α) :
    flatten (.mk l r w d) = flatten l ++ flatten r := by
  cases l with
  | nil => exact absurd rfl hl
  | mk a b c e => rfl

theorem concatenateNodes_string (l r : RopeNode α) :
    ropeString (concatenateNodes l r) = ropeString l ++ ropeString r := by
  match l, r with
  | .nil, r => simp [concatenateNodes, ropeString]
  | .mk a b c e, .nil => simp [concatenateNodes, ropeString]
  | .mk a b c e, .mk f g h i =>
    show ropeString (.mk (.mk a b c e) (.mk f g h i) _ []) = _
    rw [ropeString_node (by simp)]

theorem concatenateNodes_ne_nil {l r : RopeNode α} (hl : l ≠ .nil) (hr : r ≠ .nil) :
    concatenateNodes l r ≠ .nil := by
  match l, r with
  | .nil, _ => exact absurd rfl hl
  | .mk a b c e, .nil => exact absurd rfl hr
  | .mk a b c e, .mk f g h i => simp [concatenateNodes]

theorem concatenateNodes_WF {l r : RopeNode α} (hl : WF l) (hr : WF r) :
    WF (concatenateNodes l r) := by
  match l, r with
  | .nil, r => simpa [concatenateNodes] using hr
  | .mk a b c e, .nil => simpa [concatenateNodes] using hl
  | .mk a b c e, .mk f g h i =>
    exact WF.node _ _ _ _ hl hr (by simp) (by simp) rfl

theorem WF_totalGraphemes {n : RopeNode α} (h : WF n) :
    totalGraphemes n = (ropeString n).length := by
  induction h with
  | nil => simp [totalGraphemes, ropeString]
  | leaf w d hw => simp [totalGraphemes, ropeString, hw]
  | node l r w d hl hr hnl hnr hw ihl ihr =>
    rw [totalGraphemes_node hnl, ropeString_node hnl]
    simp [hw, ihl, ihr]

theorem splitNode_spec {n : RopeNode α} (h : WF n) (i : Nat) :
    ropeString (splitNode n i).1 = (ropeString n).take i ∧
    ropeString (splitNode n i).2 = (ropeString n).drop i ∧
    WF (splitNode n i).1 ∧ WF (splitNode n i).2 := by
  induction h generalizing i with
  | nil => simp [splitNode, ropeString, WF.nil]
  | leaf w d hw =>
    by_cases h0 : i = 0
    · subst h0
      simp [splitNode, ropeString]
      exact ⟨WF.nil, WF.leaf w d hw⟩
    · by_cases hwi : w ≤ i
      · have hle : d.length ≤ i := hw ▸ hwi
        simp [splitNode, h0, hwi, ropeString, List.take_of_length_le hle,
          List.drop_eq_nil_of_le hle]
        exact ⟨WF.leaf w d hw, WF.nil⟩
      · have hi : i < d.length := hw ▸ Nat.lt_of_not_le hwi
        simp [splitNode, h0, hwi, ropeString]
        refine ⟨WF.leaf _ _ ?_, WF.leaf _ _ ?_⟩
        · simp [List.length_take, Nat.min_eq_left (Nat.le_of_lt hi)]
        · simp [List.length_drop, hw]
  | node l r w d hl hr hnl hnr hw ihl ihr =>
    have hlen : w = (ropeString l).length := hw.trans (WF_totalGraphemes hl)
    have hsplit : ∀ j, splitNode (.mk l r w d) j =
        if j < w then ((splitNode l j).1, concatenateNodes (splitNode l j).2 r)
        else (concatenateNodes l (splitNode r (j - w)).1, (splitNode r (j - w)).2) := by
      intro j
      cases l with
      | nil => exact absurd rfl hnl
      | mk a b c e => rfl
    have hstr : ropeString (.mk l r w d) = ropeString l ++ ropeString r :=
      ropeString_node hnl r w d
    by_cases hiw : i < w
    · have hsub : i - (ropeString l).length = 0 := by omega
      rw [hsplit i, if_pos hiw, hstr]
      obtain ⟨e1, e2, w1, w2⟩ := ihl i
      refine ⟨?_, ?_, w1, concatenateNodes_WF w2 hr⟩
      · simp [e1, List.take_append_eq_append_take, hsub]
      · simp [concatenateNodes_string, e2, List.drop_append_eq_append_drop, hsub]
    · have hwi : w ≤ i := Nat.le_of_not_lt hiw
      have hi : (ropeString l).length ≤ i := by omega
      rw [hsplit i, if_neg hiw, hstr]
      obtain ⟨e1, e2, w1, w2⟩ := ihr (i - w)
      refine ⟨?_, ?_, concatenateNodes_WF hl w1, w2⟩
      · simp only [concatenateNodes_string, List.take_append_eq_append_take,
          List.take_of_length_le hi, ← hlen, e1]
      · simp only [List.drop_append_eq_append_drop, List.drop_eq_nil_of_le hi,
          List.nil_append, ← hlen, e2]

theorem buildBalancedTree_cons_ne_nil (m : RopeNode α) (rest : List (RopeNode α))
    (h : ∀ x ∈ m :: rest, x ≠ RopeNode.nil) :
    buildBalancedTree (m :: rest) ≠ RopeNode.nil := by
  match rest with
  | [] =>
    rw [buildBalancedTree]
    exact h m (by simp)
  | b :: t =>
    rw [buildBalancedTree]
    simp

theorem buildBalancedTree_spec :
    ∀ (ls : List (RopeNode α)), (∀ m ∈ ls, WF m ∧ m ≠ RopeNode.nil) →
      WF (buildBalancedTree ls) ∧
      ropeString (buildBalancedTree ls) = (ls.map ropeString).flatten
  | [], _ => by
    rw [buildBalancedTree]
    exact ⟨WF.nil, by simp [ropeString]⟩
  | [m], h => by
    rw [buildBalancedTree]
    simpa [ropeString] using (h m (by simp)).1
  | a :: b :: rest, h => by
    have hmid1 : 1 ≤ (a :: b :: rest).length / 2 := by simp; omega
    have hmid2 : (a :: b :: rest).length / 2 < (a :: b :: rest).length := by simp; omega
    obtain ⟨wl, sl⟩ := buildBalancedTree_spec ((a :: b :: rest).take ((a :: b :: rest).length / 2))
      (fun m hm => h m (List.mem_of_mem_take hm))
    obtain ⟨wr, sr⟩ := buildBalancedTree_spec ((a :: b :: rest).drop ((a :: b :: rest).length / 2))
      (fun m hm => h m (List.mem_of_mem_drop hm))
    have htake : (a :: b :: rest).take ((a :: b :: rest).length / 2) =
        a :: (b :: rest).take ((a :: b :: rest).length / 2 - 1) := by
      have h1 : (a :: b :: rest).length / 2 = ((a :: b :: rest).length / 2 - 1) + 1 := by omega
      rw [h1, List.take_succ_cons]
      simp
    have hdrop : ∃ y t, (a :: b :: rest).drop ((a :: b :: rest).length / 2) = y :: t := by
      match hx : (a :: b :: rest).drop ((a :: b :: rest).length / 2) with
      | [] =>
        exfalso
        have h2 := congrArg List.length hx
        simp [List.length_drop] at h2
        omega
      | y :: t => exact ⟨y, t, rfl⟩
    obtain ⟨y, t, hyt⟩ := hdrop
    have hnl : buildBalancedTree ((a :: b :: rest).take ((a :: b :: rest).length / 2)) ≠
        RopeNode.nil := by
      rw [htake]
      refine buildBalancedTree_cons_ne_nil _ _ (fun x hx => (h x ?_).2)
      exact List.mem_of_mem_take (htake ▸ hx)
    have hnr : buildBalancedTree ((a :: b :: rest).drop ((a :: b :: rest).length / 2)) ≠
        RopeNode.nil := by
      rw [hyt]
      exact buildBalancedTree_cons_ne_nil _ _
        (fun x hx => (h x (List.mem_of_mem_drop (hyt ▸ hx))).2)
    have hnode : buildBalancedTree (a :: b :: rest) =
        RopeNode.mk (buildBalancedTree ((a :: b :: rest).take ((a :: b :: rest).length / 2)))
          (buildBalancedTree ((a :: b :: rest).drop ((a :: b :: rest).length / 2)))
          (totalGraphemes (buildBalancedTree ((a :: b :: rest).take ((a :: b :: rest).length / 2))))
          [] := by
      rw [buildBalancedTree]
    constructor
    · rw [hnode]
      exact WF.node _ _ _ _ wl wr hnl hnr rfl
    · rw [hnode, ropeString_node hnl, sl, sr, ← List.flatten_append,
        ← List.map_append, List.take_append_drop]
termination_by ls => ls.length
decreasing_by
  all_goals simp [List.length_take, List.length_drop]
  all_goals omega

theorem splitIntoLeavesGo_spec (maxSize : Nat) :
    ∀ (s sb : List α) (count : Nat), count = sb.length →
      (∀ m ∈ splitIntoLeavesGo maxSize s sb count, WF m ∧ m ≠ RopeNode.nil) ∧
      ((splitIntoLeavesGo maxSize s sb count).map ropeString).flatten = sb ++ s := by
  intro s
  induction s with
  | nil =>
    intro sb count hc
    by_cases hsb : sb.isEmpty
    · have : sb = [] := List.isEmpty_iff.mp hsb
      subst this
      simp [splitIntoLeavesGo]
    · constructor
      · intro m hm
        simp [splitIntoLeavesGo, hsb] at hm
        subst hm
        exact ⟨WF.leaf _ _ hc, by simp⟩
      · simp [splitIntoLeavesGo, hsb, ropeString]
  | cons c rest ih =>
    intro sb count hc
    by_cases hflush : maxSize ≤ count + 1
    · obtain ⟨ihw, ihs⟩ := ih [] 0 rfl
      constructor
      · intro m hm
        simp only [splitIntoLeavesGo, if_pos hflush, List.mem_cons] at hm
        rcases hm with hm | hm
        · subst hm
          exact ⟨WF.leaf _ _ (by simp [hc]), by simp⟩
        · exact ihw m hm
      · simp only [splitIntoLeavesGo, if_pos hflush, List.map_cons, List.flatten_cons, ihs]
        have h1 : ropeString (RopeNode.mk .nil .nil (count + 1) (sb ++ [c])) = sb ++ [c] := by
          simp [ropeString]
        rw [h1]
        simp
    · obtain ⟨ihw, ihs⟩ := ih (sb ++ [c]) (count + 1) (by simp [hc])
      constructor
      · intro m hm
        simp only [splitIntoLeavesGo, if_neg hflush] at hm
        exact ihw m hm
      · simp only [splitIntoLeavesGo, if_neg hflush, ihs]
        simp

theorem newRope_WF (s : List α) : WF (newRope s) :=
  (buildBalancedTree_spec _ (splitIntoLeavesGo_spec MaxLeafSize s [] 0 rfl).1).1

theorem newRope_string (s : List α) : ropeString (newRope s) = s := by
  rw [newRope, splitIntoLeaves,
    (buildBalancedTree_spec _ (splitIntoLeavesGo_spec MaxLeafSize s [] 0 rfl).1).2,
    (splitIntoLeavesGo_spec MaxLeafSize s [] 0 rfl).2]
  rfl

theorem newRope_total (s : List α) : totalGraphemes (newRope s) = s.length := by
  rw [WF_totalGraphemes (newRope_WF s), newRope_string]

theorem flatten_spec {n : RopeNode α} (h : WF n) :
    (∀ m ∈ flatten n, WF m ∧ m ≠ RopeNode.nil) ∧
    ((flatten n).map ropeString).flatten = ropeString n := by
  induction h with
  | nil => simp [flatten, ropeString]
  | leaf w d hw =>
    refine ⟨?_, by simp [flatten, ropeString]⟩
    intro m hm
    simp [flatten] at hm
    subst hm
    exact ⟨WF.leaf w d hw, by simp⟩
  | node l r w d hl hr hnl hnr hw ihl ihr =>
    obtain ⟨wl, sl⟩ := ihl
    obtain ⟨wr, sr⟩ := ihr
    refine ⟨?_, ?_⟩
    · intro m hm
      rw [flatten_node hnl] at hm
      rcases List.mem_append.mp hm with hm | hm
      · exact wl m hm
      · exact wr m hm
    · rw [flatten_node hnl, ropeString_node hnl, List.map_append, List.flatten_append, sl, sr]

theorem rebalance_WF {n : RopeNode α} (h : WF n) : WF (rebalance n) :=
  (buildBalancedTree_spec _ (flatten_spec h).1).1

theorem rebalance_string {n : RopeNode α} (h : WF n) :
    ropeString (rebalance n) = ropeString n := by
  rw [rebalance, (buildBalancedTree_spec _ (flatten_spec h).1).2, (flatten_spec h).2]

/-! Rope API specifications. -/

theorem ropeInsert_ok {root : RopeNode α} (h : WF root) {i : Int} (t : List α)
    (h0 : 0 ≤ i) (hN : i ≤ (totalGraphemes root : Int)) :
    ∃ r, ropeInsert root i t = .ok r ∧ WF r ∧
      ropeString r = (ropeString root).take i.toNat ++ t ++ (ropeString root).drop i.toNat := by
  have hcond : ¬(i < 0 ∨ (totalGraphemes root : Int) < i) := by omega
  obtain ⟨e1, e2, w1, w2⟩ := splitNode_spec h i.toNat
  refine ⟨_, by rw [ropeInsert, if_neg hcond], ?_, ?_⟩
  · exact rebalance_WF (concatenateNodes_WF (concatenateNodes_WF w1 (newRope_WF t)) w2)
  · rw [rebalance_string (concatenateNodes_WF (concatenateNodes_WF w1 (newRope_WF t)) w2),
      concatenateNodes_string, concatenateNodes_string, e1, e2, newRope_string]

theorem ropeDelete_ok {root : RopeNode α} (h : WF root) {a b : Int}
    (h0 : 0 ≤ a) (hab : a ≤ b) (hN : b ≤ (totalGraphemes root : Int)) :
    ∃ r, ropeDelete root a b = .ok r ∧ WF r ∧
      ropeString r = (ropeString root).take a.toNat ++ (ropeString root).drop b.toNat := by
  have hcond : ¬(a < 0 ∨ (totalGraphemes root : Int) < b ∨ b < a) := by omega
  obtain ⟨e1, e2, w1, w2⟩ := splitNode_spec h a.toNat
  obtain ⟨f1, f2, x1, x2⟩ := splitNode_spec w2 (b - a).toNat
  have hdrop : a.toNat + (b - a).toNat = b.toNat := by omega
  refine ⟨_, by rw [ropeDelete, if_neg hcond], ?_, ?_⟩
  · exact rebalance_WF (concatenateNodes_WF w1 x2)
  · rw [rebalance_string (concatenateNodes_WF w1 x2), concatenateNodes_string, e1,
      f2, e2, List.drop_drop, hdrop]

theorem ropeReplace_ok {root : RopeNode α} (h : WF root) {a b : Int} (t : List α)
    (h0 : 0 ≤ a) (hab : a ≤ b) (hN : b ≤ (totalGraphemes root : Int)) :
    ∃ r, ropeReplace root a b t = .ok r ∧ WF r ∧
      ropeString r = (ropeString root).take a.toNat ++ t ++ (ropeString root).drop b.toNat := by
  have hcond : ¬(a < 0 ∨ (totalGraphemes root : Int) < b ∨ b < a) := by omega
  obtain ⟨e1, e2, w1, w2⟩ := splitNode_spec h a.toNat
  obtain ⟨f1, f2, x1, x2⟩ := splitNode_spec w2 (b - a).toNat
  have hdrop : a.toNat + (b - a).toNat = b.toNat := by omega
  refine ⟨_, by rw [ropeReplace, if_neg hcond], ?_, ?_⟩
  · exact rebalance_WF (concatenateNodes_WF (concatenateNodes_WF w1 (newRope_WF t)) x2)
  · rw [rebalance_string (concatenateNodes_WF (concatenateNodes_WF w1 (newRope_WF t)) x2),
      concatenateNodes_string, concatenateNodes_string, e1, newRope_string,
      f2, e2, List.drop_drop, hdrop]

/-! Claims about the rope. -/

/-- C1: splitting the root of a rope built from a cluster string at any
position p in [0, N] yields a left part holding exactly p graphemes, and
concatenating the two parts restores the original document string. -/
theorem c1_split_left_count_and_concat_restores (s : List α) (p : Nat)
    (hp : p ≤ totalGraphemes (newRope s)) :
    totalGraphemes (splitNode (newRope s) p).1 = p ∧
    ropeString (concatenateNodes (splitNode (newRope s) p).1 (splitNode (newRope s) p).2) =
      ropeString (newRope s) := by
  obtain ⟨e1, e2, w1, w2⟩ := splitNode_spec (newRope_WF s) p
  have hN : totalGraphemes (newRope s) = s.length := newRope_total s
  constructor
  · rw [WF_totalGraphemes w1, e1, newRope_string, List.length_take]
    omega
  · rw [concatenateNodes_string, e1, e2, List.take_append_drop]

/-- Witness for C1: the three-cluster document split at position 2. -/
theorem c1_split_left_count_and_concat_restores_witness :
    2 ≤ totalGraphemes (newRope (["a", "b", "c"] : List String)) ∧
    (totalGraphemes (splitNode (newRope (["a", "b", "c"] : List String)) 2).1 = 2 ∧
      ropeString (concatenateNodes (splitNode (newRope (["a", "b", "c"] : List String)) 2).1
          (splitNode (newRope (["a", "b", "c"] : List String)) 2).2) =
        ropeString (newRope (["a", "b", "c"] : List String))) :=
  ⟨by rw [newRope_total]; decide,
   c1_split_left_count_and_concat_restores (["a", "b", "c"] : List String) 2
     (by rw [newRope_total]; decide)⟩

/-- C4: on a well-formed rope and a valid range 0 ≤ a ≤ b ≤ N, Replace
succeeds, Delete at the range followed by Insert at its start succeeds,
and both produce the same document string. -/
theorem c4_replace_refines_delete_insert {root : RopeNode α} (h : WF root)
    {a b : Int} (t : List α) (h0 : 0 ≤ a) (hab : a ≤ b)
    (hN : b ≤ (totalGraphemes root : Int)) :
    ∃ r1 r2 r3, ropeReplace root a b t = .ok r1 ∧ ropeDelete root a b = .ok r2 ∧
      ropeInsert r2 a t = .ok r3 ∧ ropeString r1 = ropeString r3 := by
  obtain ⟨r1, hr1, w1, s1⟩ := ropeReplace_ok h t h0 hab hN
  obtain ⟨r2, hr2, w2, s2⟩ := ropeDelete_ok h h0 hab hN
  have hL : totalGraphemes root = (ropeString root).length := WF_totalGraphemes h
  rw [hL] at hN
  have hxlen : (List.take a.toNat (ropeString root)).length = a.toNat := by
    simp only [List.length_take]
    omega
  have ha2 : a ≤ (totalGraphemes r2 : Int) := by
    rw [WF_totalGraphemes w2, s2]
    simp only [List.length_append, List.length_take, List.length_drop]
    omega
  obtain ⟨r3, hr3, w3, s3⟩ := ropeInsert_ok w2 t h0 ha2
  refine ⟨r1, r2, r3, hr1, hr2, hr3, ?_⟩
  rw [s1, s3, s2, List.take_append_eq_append_take, List.take_of_length_le (le_of_eq hxlen),
    hxlen, Nat.sub_self, List.take_zero, List.append_nil,
    List.drop_append_eq_append_drop, List.drop_eq_nil_of_le (le_of_eq hxlen),
    hxlen, Nat.sub_self, List.drop_zero, List.nil_append]

/-- Witness for C4: replacing clusters [1, 3) of a four-cluster document
with a three-cluster text. -/
theorem c4_replace_refines_delete_insert_witness :
    (0 ≤ (1 : Int) ∧ (1 : Int) ≤ 3 ∧
      (3 : Int) ≤ (totalGraphemes (newRope (["a", "b", "c", "d"] : List String)) : Int)) ∧
    (∃ r1 r2 r3,
      ropeReplace (newRope (["a", "b", "c", "d"] : List String)) 1 3 ["X", "Y", "Z"] = .ok r1 ∧
      ropeDelete (newRope (["a", "b", "c", "d"] : List String)) 1 3 = .ok r2 ∧
      ropeInsert r2 1 ["X", "Y", "Z"] = .ok r3 ∧ ropeString r1 = ropeString r3) :=
  ⟨⟨by decide, by decide, by rw [newRope_total]; decide⟩,
   c4_replace_refines_delete_insert (newRope_WF _) ["X", "Y", "Z"] (by decide) (by decide)
     (by rw [newRope_total]; decide)⟩

/-- C5: Insert succeeds at both ends 0 and N, fails with OutOfBounds at -1
and at N + 1, and the failing calls leave the rope's string unchanged. -/
theorem c5_insert_boundaries (root : RopeNode α) (s : List α) :
    (∃ r, ropeInsert root 0 s = .ok r) ∧
    (∃ r, ropeInsert root (totalGraphemes root : Int) s = .ok r) ∧
    ropeInsert root (-1) s = .error .OutOfBounds ∧
    ropeInsert root ((totalGraphemes root : Int) + 1) s = .error .OutOfBounds ∧
    ropeString (ropeInsertApply root (-1) s) = ropeString root ∧
    ropeString (ropeInsertApply root ((totalGraphemes root : Int) + 1) s) = ropeString root := by
  have h1 : ¬((0 : Int) < 0 ∨ (totalGraphemes root : Int) < 0) := by omega
  have h2 : ¬((totalGraphemes root : Int) < 0 ∨
      (totalGraphemes root : Int) < (totalGraphemes root : Int)) := by omega
  have h3 : ((-1 : Int) < 0 ∨ (totalGraphemes root : Int) < -1) := by omega
  have h4 : ((totalGraphemes root : Int) + 1 < 0 ∨
      (totalGraphemes root : Int) < (totalGraphemes root : Int) + 1) := by omega
  refine ⟨⟨_, by rw [ropeInsert, if_neg h1]⟩, ⟨_, by rw [ropeInsert, if_neg h2]⟩,
    by rw [ropeInsert, if_pos h3], by rw [ropeInsert, if_pos h4], ?_, ?_⟩
  · rw [ropeInsertApply, ropeInsert, if_pos h3]
  · rw [ropeInsertApply, ropeInsert, if_pos h4]

/-! Word-motion and line-cache bounds machinery. -/

theorem clamp_bounds (v : Int) {hi : Int} (hhi : 0 ≤ hi) :
    0 ≤ clamp v 0 hi ∧ clamp v 0 hi ≤ hi := by
  unfold clamp
  split_ifs <;> omega

theorem findBoundaryLoop_bounds (doc : RopeNode String) {tl : Int} (htl : 0 ≤ tl)
    (ct : WordType) (dir : Int) :
    ∀ (fuel : Nat) (np : Int), 0 ≤ findBoundaryLoop doc tl ct dir np fuel ∧
      findBoundaryLoop doc tl ct dir np fuel ≤ tl := by
  intro fuel
  induction fuel with
  | zero =>
    intro np
    exact clamp_bounds np htl
  | succ fuel ih =>
    intro np
    rw [findBoundaryLoop]
    by_cases hrange : tl ≤ np + dir ∨ np + dir < 0
    · simp only [if_pos hrange]
      exact clamp_bounds _ htl
    · simp only [if_neg hrange]
      push_neg at hrange
      cases hsub : docSubstring doc (np + dir) (np + dir + 1) with
      | error e =>
        simp only [hsub]
        omega
      | ok g =>
        simp only [hsub]
        by_cases hty : getWordType g ≠ ct
        · simp only [if_pos hty]
          by_cases hdir : 0 < dir
          · simp only [if_pos hdir]
            omega
          · simp only [if_neg hdir]
            omega
        · simp only [if_neg hty]
          exact ih (np + dir)

theorem findNextWordBoundary_bounds (b : RopeBuffer) (pos dir : Int) :
    0 ≤ findNextWordBoundary b pos dir ∧
    findNextWordBoundary b pos dir ≤ (totalGraphemes b.document : Int) := by
  have htl : (0 : Int) ≤ (totalGraphemes b.document : Int) := Int.ofNat_nonneg _
  rw [findNextWordBoundary]
  by_cases h1 : (totalGraphemes b.document : Int) ≤ pos
  · simp only [if_pos h1]
    omega
  · simp only [if_neg h1]
    by_cases h2 : pos < 0
    · simp only [if_pos h2]
      omega
    · simp only [if_neg h2]
      cases hsub : docSubstring b.document pos (pos + 1) with
      | error e =>
        simp only [hsub]
        omega
      | ok curr =>
        simp only [hsub]
        exact findBoundaryLoop_bounds b.document htl (getWordType curr) dir _ pos

theorem lineStartsAux_mem (doc : List String) :
    ∀ (pos : Nat) (x : Int), x ∈ lineStartsAux doc pos →
      (pos : Int) < x ∧ x ≤ (pos : Int) + doc.length := by
  induction doc with
  | nil =>
    intro pos x hx
    simp [lineStartsAux] at hx
  | cons c rest ih =>
    intro pos x hx
    rw [lineStartsAux] at hx
    by_cases hc : c = "\n"
    · rw [if_pos hc] at hx
      rcases List.mem_cons.mp hx with h | h
      · subst h
        refine ⟨by omega, ?_⟩
        simp only [List.length_cons]
        push_cast
        omega
      · have h2 := ih (pos + 1) x h
        simp only [List.length_cons] at h2 ⊢
        push_cast at h2 ⊢
        omega
    · rw [if_neg hc] at hx
      have h2 := ih (pos + 1) x hx
      simp only [List.length_cons] at h2 ⊢
      push_cast at h2 ⊢
      omega

theorem lineStartsAux_chain (doc : List String) :
    ∀ (pos : Nat), List.Chain' (· < ·) ((pos : Int) :: lineStartsAux doc pos) := by
  induction doc with
  | nil =>
    intro pos
    simp [lineStartsAux]
  | cons c rest ih =>
    intro pos
    rw [lineStartsAux]
    have hcast : ((pos + 1 : Nat) : Int) = (pos : Int) + 1 := by push_cast; ring
    by_cases hc : c = "\n"
    · rw [if_pos hc]
      refine List.chain'_cons.mpr ⟨by omega, ?_⟩
      have h2 := ih (pos + 1)
      rwa [hcast] at h2
    · rw [if_neg hc]
      have h2 := ih (pos + 1)
      rw [hcast] at h2
      rw [List.chain'_cons'] at h2 ⊢
      refine ⟨fun y hy => ?_, h2.2⟩
      have := h2.1 y hy
      omega

theorem lineStarts_chain (doc : List String) :
    List.Chain' (· < ·) (lineStarts doc) := by
  have h := lineStartsAux_chain doc 0
  simpa [lineStarts] using h

theorem lineStarts_getD_bounds (doc : List String) (i : Nat)
    (hi : i < (lineStarts doc).length) :
    0 ≤ (lineStarts doc).getD i 0 ∧ (lineStarts doc).getD i 0 ≤ (doc.length : Int) := by
  have hmem : (lineStarts doc).getD i 0 ∈ lineStarts doc := by
    rw [List.getD_eq_getElem (lineStarts doc) 0 hi]
    exact List.getElem_mem hi
  rcases List.mem_cons.mp hmem with h | h
  · rw [h]
    exact ⟨le_refl 0, Int.ofNat_nonneg _⟩
  · have h2 := lineStartsAux_mem doc 0 _ h
    omega

theorem lineStarts_getD_strict (doc : List String) (i : Nat)
    (hi : i + 1 < (lineStarts doc).length) :
    (lineStarts doc).getD i 0 < (lineStarts doc).getD (i + 1) 0 := by
  have hc := lineStarts_chain doc
  rw [List.chain'_iff_get] at hc
  have h := hc i (by omega)
  rw [List.getD_eq_getElem (lineStarts doc) 0 (by omega),
    List.getD_eq_getElem (lineStarts doc) 0 hi]
  simpa [List.get_eq_getElem] using h

/-- Both selection endpoints of a buffer lie inside [0, N]. -/
abbrev selectionInBounds (b : RopeBuffer) : Prop :=
  0 ≤ b.selection.Start ∧ b.selection.Start ≤ (totalGraphemes b.document : Int) ∧
  0 ≤ b.selection.End ∧ b.selection.End ≤ (totalGraphemes b.document : Int)

theorem targetPos_bounds (ls le col n : Int) (h1 : 0 ≤ ls) (h2 : ls ≤ le) (h3 : le ≤ n)
    (hc : 0 ≤ col) :
    0 ≤ ls + (if le - ls < col then le - ls else col) ∧
    ls + (if le - ls < col then le - ls else col) ≤ n := by
  split_ifs <;> omega

theorem moveSelections_bounds (b : RopeBuffer) (hsel : selectionInBounds b)
    (offset : Int) (extend : Bool) :
    selectionInBounds (motionResult (moveSelections b offset extend) b) := by
  obtain ⟨hS0, hSN, hE0, hEN⟩ := hsel
  have hc := clamp_bounds (b.selection.End + offset)
    (Int.ofNat_nonneg (totalGraphemes b.document))
  cases extend with
  | false =>
    rw [moveSelections, if_neg (by simp)]
    exact ⟨hc.1, hc.2, hc.1, hc.2⟩
  | true =>
    rw [moveSelections, if_pos rfl]
    exact ⟨hS0, hSN, hc.1, hc.2⟩

theorem moveToNextWord_bounds (b : RopeBuffer) (hsel : selectionInBounds b)
    (extend : Bool) :
    selectionInBounds (motionResult (moveToNextWord b extend) b) := by
  obtain ⟨hS0, hSN, hE0, hEN⟩ := hsel
  have hb := findNextWordBoundary_bounds b b.selection.End 1
  cases extend with
  | false =>
    rw [moveToNextWord, if_neg (by simp)]
    exact ⟨hb.1, hb.2, hb.1, hb.2⟩
  | true =>
    rw [moveToNextWord, if_pos rfl]
    exact ⟨hS0, hSN, hb.1, hb.2⟩

theorem moveToPrevWord_bounds (b : RopeBuffer) (hsel : selectionInBounds b)
    (extend : Bool) :
    selectionInBounds (motionResult (moveToPrevWord b extend) b) := by
  obtain ⟨hS0, hSN, hE0, hEN⟩ := hsel
  have hb := findNextWordBoundary_bounds b (b.selection.Start - 1) (-1)
  cases extend with
  | false =>
    rw [moveToPrevWord, if_neg (by simp)]
    exact ⟨hb.1, hb.2, hb.1, hb.2⟩
  | true =>
    rw [moveToPrevWord, if_pos rfl]
    by_cases heq : b.selection.End = b.selection.Start
    · rw [if_pos heq]
      exact ⟨hb.1, hb.2, hS0, hSN⟩
    · rw [if_neg heq]
      exact ⟨hb.1, hb.2, hE0, hEN⟩

theorem moveSelectionToLineCol_bounds (b : RopeBuffer) (hWF : WF b.document)
    (hcache : b.lineCache = lineStarts (ropeString b.document))
    (hsel : selectionInBounds b) (line col : Int) (extend : Bool) :
    selectionInBounds (motionResult (moveSelectionToLineCol b line col extend) b) := by
  obtain ⟨hS0, hSN, hE0, hEN⟩ := hsel
  have hlen : totalGraphemes b.document = (ropeString b.document).length :=
    WF_totalGraphemes hWF
  by_cases hval : line < 0 ∨ col < 0 ∨ (b.lineCache.length : Int) ≤ line
  · rw [moveSelectionToLineCol, if_pos hval]
    exact ⟨hS0, hSN, hE0, hEN⟩
  · have hval2 := hval
    push_neg at hval2
    obtain ⟨hl0, hc0, hllen⟩ := hval2
    have hi2 : line.toNat < (lineStarts (ropeString b.document)).length := by
      rw [← hcache]
      omega
    have hstart := lineStarts_getD_bounds (ropeString b.document) line.toNat hi2
    rw [moveSelectionToLineCol, if_neg hval, hcache]
    by_cases hnext : line.toNat + 1 < (lineStarts (ropeString b.document)).length
    · have hnb := lineStarts_getD_bounds (ropeString b.document) (line.toNat + 1) hnext
      have hst := lineStarts_getD_strict (ropeString b.document) line.toNat hnext
      rw [if_pos hnext]
      have hb := targetPos_bounds ((lineStarts (ropeString b.document)).getD line.toNat 0)
        ((lineStarts (ropeString b.document)).getD (line.toNat + 1) 0 - 1) col
        (totalGraphemes b.document : Int) hstart.1 (by omega) (by omega) hc0
      cases extend with
      | false =>
        rw [if_neg (by simp)]
        exact ⟨hb.1, hb.2, hb.1, hb.2⟩
      | true =>
        rw [if_pos rfl]
        exact ⟨hS0, hSN, hb.1, hb.2⟩
    · rw [if_neg hnext]
      have hb := targetPos_bounds ((lineStarts (ropeString b.document)).getD line.toNat 0)
        (totalGraphemes b.document : Int) col (totalGraphemes b.document : Int)
        hstart.1 (by omega) (by omega) hc0
      cases extend with
      | false =>
        rw [if_neg (by simp)]
        exact ⟨hb.1, hb.2, hb.1, hb.2⟩
      | true =>
        rw [if_pos rfl]
        exact ⟨hS0, hSN, hb.1, hb.2⟩

/-- C9: on a well-formed buffer whose line cache is the rebuilt line index
and whose selection endpoints lie in [0, N], every motion - a horizontal
move by any offset, a move to any line and column, and forward and
backward word motion, extending or not - leaves both endpoints in
[0, N]. -/
theorem c9_motions_preserve_bounds (b : RopeBuffer)
    (hWF : WF b.document)
    (hcache : b.lineCache = lineStarts (ropeString b.document))
    (hsel : selectionInBounds b)
    (offset line col : Int) (extend : Bool) :
    selectionInBounds (motionResult (moveSelections b offset extend) b) ∧
    selectionInBounds (motionResult (moveSelectionToLineCol b line col extend) b) ∧
    selectionInBounds (motionResult (moveToNextWord b extend) b) ∧
    selectionInBounds (motionResult (moveToPrevWord b extend) b) :=
  ⟨moveSelections_bounds b hsel offset extend,
   moveSelectionToLineCol_bounds b hWF hcache hsel line col extend,
   moveToNextWord_bounds b hsel extend,
   moveToPrevWord_bounds b hsel extend⟩

/-- The document of the C9 witness: "a\nb" as one rope leaf. -/
def c9doc : RopeNode String := RopeNode.mk .nil .nil 3 ["a", "\n", "b"]

/-- The C9 witness buffer: selection endpoints 1 and 2 inside [0, 3]. -/
def c9buffer : RopeBuffer := ⟨c9doc, ⟨1, 2⟩, lineStarts ["a", "\n", "b"]⟩

/-- Witness for C9: the three-cluster two-line buffer moved with offset 5,
line 1, column 7 and extend on. -/
theorem c9_motions_preserve_bounds_witness :
    (WF c9buffer.document ∧
      c9buffer.lineCache = lineStarts (ropeString c9buffer.document) ∧
      selectionInBounds c9buffer) ∧
    (selectionInBounds (motionResult (moveSelections c9buffer 5 true) c9buffer) ∧
     selectionInBounds (motionResult (moveSelectionToLineCol c9buffer 1 7 true) c9buffer) ∧
     selectionInBounds (motionResult (moveToNextWord c9buffer true) c9buffer) ∧
     selectionInBounds (motionResult (moveToPrevWord c9buffer true) c9buffer)) :=
  ⟨⟨WF.leaf 3 ["a", "\n", "b"] rfl, by decide, by decide⟩,
   c9_motions_preserve_bounds c9buffer (WF.leaf 3 ["a", "\n", "b"] rfl) (by decide) (by decide)
     5 1 7 true⟩

/-! Concrete scenario claims: word motion, sticky column, insert modes. -/

/-- The clusters of "foo bar_baz  qux". -/
def c6doc : List String :=
  ["f", "o", "o", " ", "b", "a", "r", "_", "b", "a", "z", " ", " ", "q", "u", "x"]

/-- The word-motion scenario buffer: a collapsed selection at 0 over the
single-line document. -/
def c6buffer : RopeBuffer := ⟨newRope c6doc, ⟨0, 0⟩, lineStarts c6doc⟩

/-- One forward word motion with extend off. -/
def c6next (b : RopeBuffer) : RopeBuffer := motionResult (moveToNextWord b false) b

/-- Whether a fallible call returned without an error. -/
def isOkE {ε β : Type} : Except ε β → Bool
  | .ok _ => true
  | .error _ => false

/-- C6: on "foo bar_baz  qux" (16 graphemes), forward word motion from 0
visits 3, 4, 11, 13 and 16; a further forward motion at N = 16 stays at
16 and backward motion at 0 stays at 0, both without failing. -/
theorem c6_word_motion :
    (c6next c6buffer).selection.End = 3 ∧
    (c6next (c6next c6buffer)).selection.End = 4 ∧
    (c6next (c6next (c6next c6buffer))).selection.End = 11 ∧
    (c6next (c6next (c6next (c6next c6buffer)))).selection.End = 13 ∧
    (c6next (c6next (c6next (c6next (c6next c6buffer))))).selection.End = 16 ∧
    (totalGraphemes c6buffer.document : Int) = 16 ∧
    isOkE (moveToNextWord (c6next (c6next (c6next (c6next (c6next c6buffer))))) false) = true ∧
    (c6next (c6next (c6next (c6next (c6next (c6next c6buffer)))))).selection.End = 16 ∧
    isOkE (moveToPrevWord c6buffer false) = true ∧
    (motionResult (moveToPrevWord c6buffer false) c6buffer).selection.End = 0 := by
  have hrope : newRope c6doc = RopeNode.mk .nil .nil 16 c6doc := by
    rw [newRope, show splitIntoLeaves MaxLeafSize c6doc =
      [RopeNode.mk .nil .nil 16 c6doc] from rfl, buildBalancedTree]
  simp only [c6next, c6buffer, hrope]
  decide

/-- The clusters of the three-line document "abcdef\nab\nabcd". -/
def c7doc : List String :=
  ["a", "b", "c", "d", "e", "f", "\n", "a", "b", "\n", "a", "b", "c", "d"]

/-- The sticky-column scenario buffer: cursor at line 0 column 5. -/
def c7buffer : RopeBuffer := ⟨newRope c7doc, ⟨5, 5⟩, lineStarts c7doc⟩

/-- The sticky-column scenario editor: desired column 5. -/
def c7state0 : EditorState := ⟨some c7buffer, .Normal, 5⟩

/-- The editor after the first relative jump down. -/
def c7state1 : EditorState := (jumpFromCursor c7state0 1 false).1

/-- The editor after the second relative jump down. -/
def c7state2 : EditorState := (jumpFromCursor c7state1 1 false).1

/-- The editor after jumping back up once. -/
def c7state3 : EditorState := (jumpFromCursor c7state2 (-1) false).1

/-- The editor after jumping back up twice. -/
def c7state4 : EditorState := (jumpFromCursor c7state3 (-1) false).1

/-- Line and column of the head of the current buffer. -/
def headLineCol (e : EditorState) : Int × Int :=
  match e.current with
  | some b =>
    match positionToLineCol b b.selection.End with
    | .ok lc => lc
    | .error _ => (-1, -1)
  | none => (-1, -1)

/-- C7: on lines "abcdef", "ab", "abcd" with the cursor at (0, 5) and
desired column 5, relative vertical jumps put the head at (1, 2), then
(2, 4), then (1, 2) again, then (0, 5); the desired column stays 5
throughout, so short-line clamping does not reset it and longer lines
re-acquire it. -/
theorem c7_vertical_sticky_column :
    (jumpFromCursor c7state0 1 false).2 = none ∧ headLineCol c7state1 = (1, 2) ∧
      c7state1.desiredColumn = 5 ∧
    (jumpFromCursor c7state1 1 false).2 = none ∧ headLineCol c7state2 = (2, 4) ∧
      c7state2.desiredColumn = 5 ∧
    (jumpFromCursor c7state2 (-1) false).2 = none ∧ headLineCol c7state3 = (1, 2) ∧
      c7state3.desiredColumn = 5 ∧
    (jumpFromCursor c7state3 (-1) false).2 = none ∧ headLineCol c7state4 = (0, 5) ∧
      c7state4.desiredColumn = 5 := by
  have hrope : newRope c7doc = RopeNode.mk .nil .nil 14 c7doc := by
    rw [newRope, show splitIntoLeaves MaxLeafSize c7doc =
      [RopeNode.mk .nil .nil 14 c7doc] from rfl, buildBalancedTree]
  simp only [c7state4, c7state3, c7state2, c7state1, c7state0, c7buffer, hrope]
  decide

/-- C8: InsertText fails with NoBuffer when there is no current buffer and
with InvalidOperation when the mode is not Insert, leaving the state
untouched in both cases; in Insert mode it collapses the selection to the
head and delegates to the buffer insert. -/
theorem c8_insert_text_modes (e : EditorState) (text : List String) :
    (e.current = none → insertText e text = (e, some .NoBuffer)) ∧
    (∀ b, e.current = some b → e.mode ≠ .Insert →
      insertText e text = (e, some .InvalidOperation)) ∧
    (∀ b, e.current = some b → e.mode = .Insert →
      insertText e text =
        match ropeBufferInsert (collapseSelectionsToCursor b) text with
        | .ok b2 => ({e with current := some b2}, none)
        | .error er => ({e with current := some (collapseSelectionsToCursor b)}, some er)) := by
  refine ⟨?_, ?_, ?_⟩
  · intro h
    rw [insertText, h]
  · intro b hb hm
    rw [insertText, hb]
    dsimp only
    rw [if_pos hm]
  · intro b hb hm
    rw [insertText, hb]
    dsimp only
    rw [if_neg (by simp [hm])]

/-- The buffer of the C8 witness. -/
def c8buffer : RopeBuffer :=
  ⟨RopeNode.mk .nil .nil 2 ["a", "b"], ⟨0, 1⟩, lineStarts ["a", "b"]⟩

/-- Witness for C8: an empty editor rejects the insert with NoBuffer, a
Normal-mode editor with InvalidOperation, and an Insert-mode editor
delegates to the buffer insert of the collapsed selection. -/
theorem c8_insert_text_modes_witness :
    insertText ⟨none, .Insert, -1⟩ ["x"] = (⟨none, .Insert, -1⟩, some .NoBuffer) ∧
    insertText ⟨some c8buffer, .Normal, -1⟩ ["x"] =
      (⟨some c8buffer, .Normal, -1⟩, some .InvalidOperation) ∧
    insertText ⟨some c8buffer, .Insert, -1⟩ ["x"] =
      (match ropeBufferInsert (collapseSelectionsToCursor c8buffer) ["x"] with
        | .ok b2 => (⟨some b2, .Insert, -1⟩, none)
        | .error er => (⟨some (collapseSelectionsToCursor c8buffer), .Insert, -1⟩, some er)) :=
  ⟨(c8_insert_text_modes ⟨none, .Insert, -1⟩ ["x"]).1 rfl,
   (c8_insert_text_modes ⟨some c8buffer, .Normal, -1⟩ ["x"]).2.1 c8buffer rfl (by decide),
   (c8_insert_text_modes ⟨some c8buffer, .Insert, -1⟩ ["x"]).2.2 c8buffer rfl rfl⟩

/-! Chunk-buffer claims. -/

/-- The manager of a freshly opened two-byte file "ab". -/
def abManager : ChunkManager := ⟨[], DefaultChunkSize, 0, 2, [97, 98]⟩

/-- The chunk buffer over "ab" with the cursor at 0. -/
def abBuffer : ChunkBuffer := ⟨abManager, 0⟩

/-- C2 (the code evaluated at the failing input): inserting the
one-cluster two-byte text "é" at cursor 0 advances the cursor to 2 - the
byte length - instead of 0 + 1, the grapheme count the claim and the
cursor's own documentation demand. -/
theorem c2_insert_advances_cursor_by_bytes :
    (chunkResult (bufInsert abBuffer (bytesOfClusters [[195, 169]])) abBuffer).cursor = 2 ∧
    countGraphemes [[195, 169]] = 1 ∧
    (chunkResult (bufInsert abBuffer (bytesOfClusters [[195, 169]])) abBuffer).cursor ≠
      abBuffer.cursor + countGraphemes [[195, 169]] := by
  decide

/-- A buffer over the empty file. -/
def emptyBuffer : ChunkBuffer := ⟨⟨[], DefaultChunkSize, 0, 0, []⟩, 0⟩

/-- A buffer over the two-byte file "a\n" with its chunk loaded. -/
def nlBuffer : ChunkBuffer := ⟨⟨[(0, ⟨[97, 10], false⟩)], DefaultChunkSize, 1, 2, [97, 10]⟩, 0⟩

/-- C3 counterexample: LineCount returns 0 on the empty document where the
claim demands 1 + 0 = 1, and returns 1 on the document "a\n" where the
claim demands 1 + 1 = 2. -/
theorem c3_lineCount_not_one_plus_newlines :
    (lineCount emptyBuffer).1 = 0 ∧
    (lineCount emptyBuffer).1 ≠ 1 + List.count 10 ([] : List Nat) ∧
    (lineCount nlBuffer).1 = 1 ∧
    (lineCount nlBuffer).1 ≠ 1 + List.count 10 [97, 10] := by
  decide

/-- C3 amended: with exactly chunk 0 loaded holding content c and an
open-time size strictly between 0 and the chunk size, LineCount returns
the line-feed count of c plus one exactly when c does not end in a line
feed; over the empty file it returns 0. -/
theorem c3_lineCount_single_chunk (c fb : List Nat) (d : Bool) (ts cur : Nat)
    (h1 : 0 < ts) (h2 : ts < DefaultChunkSize) :
    (lineCount ⟨⟨[(0, ⟨c, d⟩)], DefaultChunkSize, 1, ts, fb⟩, cur⟩).1 =
      c.count 10 + (if c.getLast? = some 10 then 0 else 1) ∧
    (lineCount emptyBuffer).1 = 0 := by
  constructor
  · have hts0 : ts / DefaultChunkSize = 0 := Nat.div_eq_of_lt h2
    have hg0 : getChunk ⟨[(0, ⟨c, d⟩)], DefaultChunkSize, 1, ts, fb⟩ 0 =
        .ok (⟨c, d⟩, ⟨[(0, ⟨c, d⟩)], DefaultChunkSize, 1, ts, fb⟩) := rfl
    have hg1 : getChunk ⟨[(0, ⟨c, d⟩)], DefaultChunkSize, 1, ts, fb⟩ 1 = .error .EOF := by
      rw [getChunk]
      have hl : ([(0, ⟨c, d⟩)] : List (Nat × Chunk)).lookup 1 = none := rfl
      rw [hl, loadChunk]
      rw [if_pos (by simp [DefaultChunkSize] at h2 ⊢; omega)]
    rw [lineCount]
    dsimp only
    rw [show (⟨[(0, ⟨c, d⟩)], DefaultChunkSize, 1, ts, fb⟩ : ChunkManager).totalSize /
        (⟨[(0, ⟨c, d⟩)], DefaultChunkSize, 1, ts, fb⟩ : ChunkManager).chunkSize = 0 from hts0]
    rw [show (⟨[(0, ⟨c, d⟩)], DefaultChunkSize, 1, ts, fb⟩ : ChunkManager).chunks.foldl
        (fun a q => max a q.1) 0 = 0 from rfl]
    rw [lineCountLoop, hg0]
    dsimp only
    rw [lineCountLoop, hg1]
    dsimp only
    rw [hts0, hg0]
    dsimp only
    by_cases hl : c.getLast? = some 10
    · rw [if_pos hl, if_pos hl]
      omega
    · rw [if_neg hl, if_neg hl]
      omega
  · decide

/-- Witness for C3 amended: the one-byte file "a" yields one line. -/
theorem c3_lineCount_single_chunk_witness :
    (0 < 1 ∧ 1 < DefaultChunkSize) ∧
    ((lineCount ⟨⟨[(0, ⟨[97], false⟩)], DefaultChunkSize, 1, 1, [97]⟩, 0⟩).1 =
        List.count 10 [97] + (if ([97] : List Nat).getLast? = some 10 then 0 else 1) ∧
      (lineCount emptyBuffer).1 = 0) :=
  ⟨⟨by decide, by decide⟩,
   c3_lineCount_single_chunk [97] [97] false 1 0 (by decide) (by decide)⟩

theorem getChunk_totalSize {cm : ChunkManager} {id : Nat} {p : Chunk × ChunkManager}
    (h : getChunk cm id = .ok p) : p.2.totalSize = cm.totalSize := by
  rw [getChunk] at h
  cases hl : cm.chunks.lookup id with
  | some c =>
    rw [hl] at h
    cases h
    rfl
  | none =>
    rw [hl] at h
    cases hload : loadChunk cm id with
    | error e =>
      rw [hload] at h
      cases h
    | ok c =>
      rw [hload] at h
      cases h
      rfl

/-- C10: Insert and Delete leave the manager's totalSize untouched, Size
reads exactly that open-time figure, and Delete rejects every range whose
end exceeds it - the open-time size, not the current content length. -/
theorem c10_size_frozen_at_open (b : ChunkBuffer) (s : List Nat) (start stop : Int)
    (_hroom : b.manager.loadedChunks + 2 ≤ MaxLoadedChunks) :
    (chunkResult (bufInsert b s) b).manager.totalSize = b.manager.totalSize ∧
    (chunkResult (bufDelete b start stop) b).manager.totalSize = b.manager.totalSize ∧
    bufSize b = b.manager.totalSize ∧
    ((bufSize b : Int) < stop → bufDelete b start stop = .error .InvalidRange) := by
  refine ⟨?_, ?_, rfl, ?_⟩
  · rw [bufInsert]
    cases hg : getChunk b.manager (b.cursor / b.manager.chunkSize) with
    | error e => rfl
    | ok p =>
      have := getChunk_totalSize hg
      simpa [chunkResult, writeChunk] using this
  · rw [bufDelete]
    by_cases hv : start < 0 ∨ (bufSize b : Int) < stop ∨ stop < start
    · rw [if_pos hv]
      rfl
    · rw [if_neg hv]
      dsimp only
      by_cases hse : start.toNat / b.manager.chunkSize = stop.toNat / b.manager.chunkSize
      · rw [if_pos hse]
        cases hg : getChunk b.manager (start.toNat / b.manager.chunkSize) with
        | error e => rfl
        | ok p =>
          have := getChunk_totalSize hg
          simpa [chunkResult, writeChunk] using this
      · rw [if_neg hse]
        cases hg : getChunk b.manager (start.toNat / b.manager.chunkSize) with
        | error e => rfl
        | ok p =>
          have h1 := getChunk_totalSize hg
          cases hg2 : getChunk p.2 (stop.toNat / b.manager.chunkSize) with
          | error e =>
            simp only [hg, hg2, chunkResult, writeChunk]
            exact h1
          | ok q =>
            have h2 := getChunk_totalSize hg2
            simp only [hg, hg2, chunkResult, writeChunk]
            rw [h2, h1]
  · intro h
    rw [bufDelete, if_pos (Or.inr (Or.inl h))]

/-- The "ab" buffer after inserting three bytes: five bytes of content, the
recorded size still 2. -/
def grownBuffer : ChunkBuffer := chunkResult (bufInsert abBuffer [120, 121, 122]) abBuffer

/-- Witness for C10: on the grown buffer, Insert and Delete keep totalSize
at 2 and deleting [0, 5) fails although five bytes of content exist. -/
theorem c10_size_frozen_at_open_witness :
    (grownBuffer.manager.loadedChunks + 2 ≤ MaxLoadedChunks ∧ (bufSize grownBuffer : Int) < 5) ∧
    ((chunkResult (bufInsert grownBuffer [107]) grownBuffer).manager.totalSize =
        grownBuffer.manager.totalSize ∧
      (chunkResult (bufDelete grownBuffer 0 5) grownBuffer).manager.totalSize =
        grownBuffer.manager.totalSize ∧
      bufSize grownBuffer = grownBuffer.manager.totalSize ∧
      bufDelete grownBuffer 0 5 = .error .InvalidRange) :=
  ⟨⟨by decide, by decide⟩,
   (c10_size_frozen_at_open grownBuffer [107] 0 5 (by decide)).1,
   (c10_size_frozen_at_open grownBuffer [107] 0 5 (by decide)).2.1,
   (c10_size_frozen_at_open grownBuffer [107] 0 5 (by decide)).2.2.1,
   (c10_size_frozen_at_open grownBuffer [107] 0 5 (by decide)).2.2.2 (by decide)⟩

end Athena
